import Mathlib

/-!
Verification development for the `content-verify-log` repository's content
processor (`pkg/service/content_processor.go`).

The Go code is shallowly embedded: Go strings become Lean `String`s (their
`[]rune` views become `List Char`), `map[string]interface{}` values decoded
from JSON become the inductive `JSONValue`, Go `int` becomes `Int`, and each
Go function becomes an executable Lean definition of the same name.  A Go
runtime panic (slice bounds out of range) is modelled by `Except Unit`, with
`.error ()` standing for the panic.
-/

set_option maxRecDepth 4096

namespace ContentVerify

/-- A decoded JSON value, as produced by Go's `encoding/json` into
`interface{}` (numbers restricted to integers, the only kind the
repository's data uses). -/

inductive JSONValue where
  | null : JSONValue
  | bool : Bool → JSONValue
  | num : Int → JSONValue
  | str : String → JSONValue
  | arr : List JSONValue → JSONValue
  | obj : List (String × JSONValue) → JSONValue
deriving Repr

/-- A decoded JSON object (`map[string]interface{}`). -/

abbrev JObject := List (String × JSONValue)

/-- Go map lookup `m[k]`; `encoding/json` fills the map left to right, so a
later duplicate key overwrites an earlier one. -/

def lookup (m : JObject) (k : String) : Option JSONValue :=
  m.foldl (fun acc kv => if kv.1 = k then some kv.2 else acc) none

/-- Go type assertion `v.(string)` applied to an optional map entry:
it succeeds only when the key is present and the value is a string. -/

def asString : Option JSONValue → Option String
  | some (.str s) => some s
  | _ => none

/-- `HtmlWord` of `content_processor.go`. -/

structure HtmlWord where
  word : String := ""
  position : Int := 0
deriving Repr, DecidableEq

/-- `ChecklistErrorType` of `content_processor.go`. -/

structure ChecklistErrorType where
  id : Int := 0
  belongId : Int := 0
  name : String := ""
  desc : String := ""
deriving Repr, DecidableEq

/-- `ChecklistItem` of `content_processor.go` (revised-schema item).
The `action` field (`map[string]interface{}`) is kept as a raw object. -/

structure ChecklistItem where
  position : Int := 0
  word : String := ""
  wordHtml : String := ""
  htmlWords : List HtmlWord := []
  length : Int := 0
  suggest : List String := []
  explanation : String := ""
  type : ChecklistErrorType := {}
  action : JObject := []
  context : String := ""
  source : Int := 0
  um_error_level : Int := 0
  leader_level : String := ""
  sentenceErrorsNumber : Int := 0
deriving Repr

/-- `Correction` of `content_processor.go` (legacy-schema item). -/

structure Correction where
  errtype : Int := 0
  errword : String := ""
  errdesc : String := ""
  pos : Int := 0
  level : Int := 0
  corword : List String := []
deriving Repr, DecidableEq

/-! ## The revised-schema patch loop (`applyChecklistFixes`, lines 219-243)

The loop body for one checklist item.  Go's `runes[start:end]` panics when
`start > end`; after the code's own bounds guard (`start < 0 || end >
len(runes)`) that is the only remaining panic condition, modelled by
`.error ()`.  Go's `end := start + item.Length` is 64-bit two's-complement
addition, which wraps; the wrap is modelled by `wrapInt64`, so (for example)
an in-range item with `position + length = 2^63` gets the wrapped negative
end Go computes, slips past the bounds guard exactly as in Go, and panics at
the slice. -/

/-- Go's int64 two's-complement wrap-around of an integer. -/
def wrapInt64 (n : Int) : Int := (n + 2 ^ 63) % 2 ^ 64 - 2 ^ 63

/-- One iteration of the `for _, item := range checklistItems` loop of
`applyChecklistFixes`: skip on empty suggestion list, skip on the bounds
guard (computed on the int64-wrapped end), panic on a reversed slice, skip
on original-word mismatch, otherwise splice the first suggestion over the
codepoint range. -/

def applyChecklistItem (runes : List Char) (item : ChecklistItem) :
    Except Unit (List Char) :=
  if item.suggest.length = 0 then .ok runes
  else
    let start := item.position
    let e := wrapInt64 (start + item.length)
    if start < 0 ∨ e > (runes.length : Int) then .ok runes
    else if e < start then .error ()
    else
      let originalWord := String.mk ((runes.take e.toNat).drop start.toNat)
      if originalWord ≠ item.word then .ok runes
      else .ok (runes.take start.toNat ++ item.suggest.headI.data ++ runes.drop e.toNat)

/-- The whole item loop of `applyChecklistFixes`, after sorting. -/

def applyItemsLoop (runes : List Char) :
    List ChecklistItem → Except Unit (List Char)
  | [] => .ok runes
  | item :: rest =>
    match applyChecklistItem runes item with
    | .error e => .error e
    | .ok runes' => applyItemsLoop runes' rest

/-! ### Specification-side definitions for claim C1

`itemApplies` decides an item's three checks (usable suggestion, bounds,
original-word content) against a fixed reference text, and `indepComposite`
is the spec's "compute each substitution independently against the original
immutable text and composite by index": every check reads the original text,
every splice lands at the item's own (unshifted) codepoint index. -/

/-- Whether an item passes all of the loop's checks against the text `orig`. -/

def itemApplies (orig : List Char) (item : ChecklistItem) : Bool :=
  if item.suggest.length = 0 then false
  else if item.position < 0 ∨ item.position + item.length > (orig.length : Int) then
    false
  else
    decide (String.mk ((orig.take (item.position + item.length).toNat).drop
      item.position.toNat) = item.word)

/-- Splice an item's first suggestion over its codepoint range. -/

def spliceChecklist (acc : List Char) (item : ChecklistItem) : List Char :=
  acc.take item.position.toNat ++ item.suggest.headI.data ++
    acc.drop (item.position + item.length).toNat

/-- Modelled from the spec: each substitution is validated independently
against the original immutable text `orig` and composited by index. -/

def indepComposite (orig : List Char) (items : List ChecklistItem) : List Char :=
  items.foldl (fun acc it => if itemApplies orig it then spliceChecklist acc it else acc) orig

/-- The list is sorted descending by position with pairwise non-overlapping
ranges: every later item ends at or before every earlier item's start. -/

def sepDesc : List ChecklistItem → Bool
  | [] => true
  | a :: rest =>
    rest.all (fun b => decide (b.position + b.length ≤ a.position)) && sepDesc rest

/-- All items have a non-negative recorded length (their position ranges are
genuine ranges). -/

def allLenNonneg (items : List ChecklistItem) : Bool :=
  items.all (fun it => decide (0 ≤ it.length))

/-- All items have an end offset `position + length` that does not overflow
int64, so Go's wrapped end agrees with the mathematical one. -/

def allEndNoWrap (items : List ChecklistItem) : Bool :=
  items.all (fun it =>
    decide (wrapInt64 (it.position + it.length) = it.position + it.length))

/-- An upper bound on every item's end offset. -/

def maxEndPos (items : List ChecklistItem) : Nat :=
  items.foldr (fun it m => max (it.position + it.length).toNat m) 0

/-- Two-item descending, non-overlapping, length-changing instance used to
instantiate the right-to-left safety theorem. -/

def c1WitnessItems : List ChecklistItem :=
  [{ position := 4, length := 2, word := "ef", suggest := ["XYZW"] },
   { position := 0, length := 2, word := "ab", suggest := ["P"] }]

/-- A single JSON-reachable item whose end offset overflows int64: Go wraps
`end` to `-2^63`, slips past the bounds guard and panics at the slice. -/

def c1WrapItems : List ChecklistItem :=
  [{ position := 9223372036854775807, length := 1, word := "", suggest := ["x"] }]

/-- A mismatching item (text reads "ab" at its range, record claims "zz")
followed by a valid item: the bad one is skipped, the rest still run. -/

def c4WitnessItem : ChecklistItem :=
  { position := 0, length := 2, word := "zz", suggest := ["Q"] }

def c4WitnessRest : List ChecklistItem :=
  [{ position := 2, length := 2, word := "cd", suggest := ["R"] }]

/-! ## Go regexp machinery for `stripErrorMarkers` / `stripHTML`

The three concrete regular expressions of `content_processor.go` are compiled
by hand into leftmost-first matchers with Perl-style backtracking order:
greedy sub-patterns (`[^>]*`, `[^"']*`, `\s*`) try longest first, the lazy
`(.*?)` tries shortest first, and `.` does not match a newline.  `\s` is Go
regexp's `[\t\n\f\r ]`. -/

/-- Go regexp's `\s` character class. -/

def isSpaceGo (c : Char) : Bool :=
  c = ' ' || c = '\t' || c = '\n' || c = Char.ofNat 12 || c = '\r'

/-- Match a literal and return the remaining input. -/

def dropLit (lit : List Char) (cs : List Char) : Option (List Char) :=
  if lit.isPrefixOf cs then some (cs.drop lit.length) else none

/-- Require one specific character. -/

def expectChar (c : Char) : List Char → Option (List Char)
  | x :: rest => if x = c then some rest else none
  | [] => none

/-- Require one of the two quote characters of the class `["']`. -/

def expectQuote : List Char → Option (List Char)
  | x :: rest => if x = '"' || x = '\'' then some rest else none
  | [] => none

/-- The lazy `(.*?)</span>` tail: the shortest newline-free span up to the
first `</span>`, returning (captured content, rest after the close tag). -/

def lazyUntilCloseSpan : List Char → Option (List Char × List Char)
  | [] => none
  | c :: rest =>
    if "</span>".data.isPrefixOf (c :: rest) then some ([], (c :: rest).drop 7)
    else if c = '\n' then none
    else
      match lazyUntilCloseSpan rest with
      | some (inner, r) => some (c :: inner, r)
      | none => none

/-- After `<span` and a candidate `[^>]*` prefix:
`class\s*=\s*["']jdt_umold["'][^>]*>`; the two `\s*` runs and the final
`[^>]*` are forced by the literal that follows them, hence deterministic. -/

def matchClassAttrTail (cs : List Char) : Option (List Char) := do
  let cs1 ← dropLit "class".data cs
  let cs2 := cs1.dropWhile isSpaceGo
  let cs3 ← expectChar '=' cs2
  let cs4 := cs3.dropWhile isSpaceGo
  let cs5 ← expectQuote cs4
  let cs6 ← dropLit "jdt_umold".data cs5
  let cs7 ← expectQuote cs6
  let cs8 := cs7.dropWhile (fun c => !(c = '>'))
  expectChar '>' cs8

/-- One backtracking attempt of the revised-flavor pattern with a `[^>]*`
prefix of length `k` before `class`. -/

def attemptNewAt (cs : List Char) (k : Nat) : Option (List Char × List Char) := do
  let afterOpen ← matchClassAttrTail (cs.drop k)
  lazyUntilCloseSpan afterOpen

/-- Backtracking over the greedy `[^>]*` before `class`, longest first;
`k` is the candidate length, bounded by the run of non-`>` characters. -/

def tryX1New (cs : List Char) : Nat → Option (List Char × List Char)
  | 0 => attemptNewAt cs 0
  | k + 1 =>
    match attemptNewAt cs (k + 1) with
    | some r => some r
    | none => tryX1New cs k

/-- Match `<span[^>]*class\s*=\s*["']jdt_umold["'][^>]*>(.*?)</span>` at the
head of the input, returning (captured group, rest after the match). -/

def matchSpanNewAt (cs : List Char) : Option (List Char × List Char) := do
  let cs1 ← dropLit "<span".data cs
  tryX1New cs1 (cs1.takeWhile (fun c => !(c = '>'))).length

/-- Leftmost match of the revised-flavor marker regex:
(text before the match, captured group, rest after the match). -/

def findSpanNewMatch : List Char → Option (List Char × List Char × List Char)
  | [] => none
  | c :: rest =>
    match matchSpanNewAt (c :: rest) with
    | some (inner, after) => some ([], inner, after)
    | none =>
      match findSpanNewMatch rest with
      | some (pre, inner, after) => some (c :: pre, inner, after)
      | none => none

/-- `ReplaceAllString(text, "$1")` for the revised-flavor marker regex:
replace each non-overlapping leftmost match by its captured group and
continue after it. -/

def replaceAllSpanNew : Nat → List Char → List Char
  | 0, cs => cs
  | fuel + 1, cs =>
    match findSpanNewMatch cs with
    | none => cs
    | some (pre, inner, after) => pre ++ inner ++ replaceAllSpanNew fuel after

/-- `<[^>]*>` tag removal (the `innerHTMLRegex` / `htmlTagRegex` pattern):
at `<`, consume through the first `>` if one exists, else keep scanning. -/

def stripTagsAux : Nat → List Char → List Char
  | 0, cs => cs
  | fuel + 1, cs =>
    match cs with
    | [] => []
    | c :: rest =>
      if c = '<' then
        let run := rest.takeWhile (fun x => !(x = '>'))
        match rest.drop run.length with
        | _ :: tail => stripTagsAux fuel tail
        | [] => c :: stripTagsAux fuel rest
      else c :: stripTagsAux fuel rest

/-- `【[^】]*错误】` removal (the `errorTextRegex` pattern): the greedy
`[^】]*` is forced to the whole non-`】` run, which must end in `错误`. -/

def removeErrNoteAux : Nat → List Char → List Char
  | 0, cs => cs
  | fuel + 1, cs =>
    match cs with
    | [] => []
    | c :: rest =>
      if c = '【' then
        let run := rest.takeWhile (fun x => !(x = '】'))
        match rest.drop run.length with
        | _ :: tail =>
          if run.drop (run.length - 2) = ['错', '误'] ∧ 2 ≤ run.length then
            removeErrNoteAux fuel tail
          else c :: removeErrNoteAux fuel rest
        | [] => c :: removeErrNoteAux fuel rest
      else c :: removeErrNoteAux fuel rest

/-- After a candidate `[^"']*` value prefix:
`background-color\s*:\s*yellow[^"']*["'][^>]*>`; the trailing greedy runs
are forced by the characters that close them, hence deterministic. -/

def matchStyleValueTail (cs : List Char) : Option (List Char) := do
  let cs1 ← dropLit "background-color".data cs
  let cs2 := cs1.dropWhile isSpaceGo
  let cs3 ← expectChar ':' cs2
  let cs4 := cs3.dropWhile isSpaceGo
  let cs5 ← dropLit "yellow".data cs4
  let cs6 := cs5.dropWhile (fun c => !(c = '"' || c = '\''))
  let cs7 ← expectQuote cs6
  let cs8 := cs7.dropWhile (fun c => !(c = '>'))
  expectChar '>' cs8

/-- Backtracking over the greedy `[^"']*` of the style value, longest
first. -/

def tryY1Old (cs : List Char) : Nat → Option (List Char)
  | 0 => matchStyleValueTail cs
  | k + 1 =>
    match matchStyleValueTail (cs.drop (k + 1)) with
    | some r => some r
    | none => tryY1Old cs k

/-- After `<span` and a candidate `[^>]*` prefix:
`style\s*=\s*["']` then the backtracked style value. -/

def matchStyleAttrTail (cs : List Char) : Option (List Char) := do
  let cs1 ← dropLit "style".data cs
  let cs2 := cs1.dropWhile isSpaceGo
  let cs3 ← expectChar '=' cs2
  let cs4 := cs3.dropWhile isSpaceGo
  let cs5 ← expectQuote cs4
  tryY1Old cs5 (cs5.takeWhile (fun c => !(c = '"' || c = '\''))).length

/-- One backtracking attempt of the legacy-flavor pattern with a `[^>]*`
prefix of length `k` before `style`; on a successful opening tag, the lazy
`.*?</span>` closes the match. -/

def attemptOldAt (cs : List Char) (k : Nat) : Option (List Char) := do
  let afterOpen ← matchStyleAttrTail (cs.drop k)
  let r ← lazyUntilCloseSpan afterOpen
  pure r.2

/-- Backtracking over the greedy `[^>]*` before `style`, longest first. -/

def tryX1Old (cs : List Char) : Nat → Option (List Char)
  | 0 => attemptOldAt cs 0
  | k + 1 =>
    match attemptOldAt cs (k + 1) with
    | some r => some r
    | none => tryX1Old cs k

/-- Match the legacy-flavor marker regex
`<span[^>]*style\s*=\s*["'][^"']*background-color\s*:\s*yellow[^"']*["'][^>]*>.*?</span>`
at the head of the input, returning the rest after the match. -/

def matchSpanOldAt (cs : List Char) : Option (List Char) := do
  let cs1 ← dropLit "<span".data cs
  tryX1Old cs1 (cs1.takeWhile (fun c => !(c = '>'))).length

/-- Leftmost match of the legacy-flavor marker regex:
(text before, whole matched text, rest after). -/

def findSpanOldMatch : List Char → Option (List Char × List Char × List Char)
  | [] => none
  | c :: rest =>
    match matchSpanOldAt (c :: rest) with
    | some after =>
      some ([], (c :: rest).take ((c :: rest).length - after.length), after)
    | none =>
      match findSpanOldMatch rest with
      | some (pre, m, after) => some (c :: pre, m, after)
      | none => none

/-- `ReplaceAllStringFunc` for the legacy-flavor marker regex: each match is
replaced by its text with all tags removed and any `【…错误】` note removed. -/

def replaceAllSpanOld : Nat → List Char → List Char
  | 0, cs => cs
  | fuel + 1, cs =>
    match findSpanOldMatch cs with
    | none => cs
    | some (pre, m, after) =>
      let innerText := stripTagsAux m.length m
      pre ++ removeErrNoteAux innerText.length innerText ++ replaceAllSpanOld fuel after

/-- `stripErrorMarkers` of `content_processor.go`: for flag `"new"` strip the
`jdt_umold` span wrappers keeping their content; for flag `"old"` replace
whole yellow-highlight spans by their cleaned inner text. -/

def stripErrorMarkers (text : String) (flag : String) : String :=
  if text = "" then text
  else
    let t1 :=
      if flag = "new" then String.mk (replaceAllSpanNew text.data.length text.data)
      else text
    if flag = "old" then String.mk (replaceAllSpanOld t1.data.length t1.data)
    else t1

/-- The HTML entities decoded by the model of `html.UnescapeString` (the
common named entities and numeric character references; the Go library knows
the full HTML5 table, of which the repository's data uses only these). -/

def unescapeEntity (cs : List Char) : Option (Char × List Char) :=
  if "lt;".data.isPrefixOf cs then some ('<', cs.drop 3)
  else if "gt;".data.isPrefixOf cs then some ('>', cs.drop 3)
  else if "amp;".data.isPrefixOf cs then some ('&', cs.drop 4)
  else if "quot;".data.isPrefixOf cs then some ('"', cs.drop 5)
  else if "apos;".data.isPrefixOf cs then some ('\'', cs.drop 5)
  else if "nbsp;".data.isPrefixOf cs then some (Char.ofNat 160, cs.drop 5)
  else
    match cs with
    | '#' :: cs' =>
      let ds := cs'.takeWhile Char.isDigit
      if ds.isEmpty then none
      else
        match cs'.drop ds.length with
        | ';' :: tail =>
          some (Char.ofNat (ds.foldl (fun a c => a * 10 + (c.toNat - 48)) 0), tail)
        | _ => none
    | _ => none

/-- Entity decoding pass of `html.UnescapeString`: an `&` that does not
start a recognized entity is kept verbatim. -/

def unescapeAux : Nat → List Char → List Char
  | 0, cs => cs
  | fuel + 1, cs =>
    match cs with
    | [] => []
    | c :: rest =>
      if c = '&' then
        match unescapeEntity rest with
        | some (d, after) => d :: unescapeAux fuel after
        | none => c :: unescapeAux fuel rest
      else c :: unescapeAux fuel rest

/-- `stripHTML` of `content_processor.go`: decode HTML entities, then remove
every `<[^>]*>` tag. -/

def stripHTML (text : String) : String :=
  if text = "" then text
  else
    let decoded := unescapeAux text.data.length text.data
    String.mk (stripTagsAux decoded.length decoded)

/-! ## `encoding/json` model

A fuel-bounded recursive-descent parser producing `JSONValue` (numbers
restricted to integers, which is all the repository's records carry), and
struct decoders with Go's zero-value defaulting: an absent or null field
keeps the zero value, a wrongly typed field fails the whole decode. -/

/-- `encoding/json` insignificant whitespace. -/

def skipWs (cs : List Char) : List Char :=
  cs.dropWhile (fun c => c = ' ' || c = '\t' || c = '\r' || c = '\n')

def hexVal (c : Char) : Option Nat :=
  if c.isDigit then some (c.toNat - 48)
  else if 'a' ≤ c ∧ c ≤ 'f' then some (c.toNat - 87)
  else if 'A' ≤ c ∧ c ≤ 'F' then some (c.toNat - 55)
  else none

/-- A `\uXXXX` escape (surrogate pairs are not combined in this model). -/

def parseU4 : List Char → Option (Char × List Char)
  | a :: b :: c :: d :: rest =>
    match hexVal a, hexVal b, hexVal c, hexVal d with
    | some x1, some x2, some x3, some x4 =>
      some (Char.ofNat (((x1 * 16 + x2) * 16 + x3) * 16 + x4), rest)
    | _, _, _, _ => none
  | _ => none

/-- A JSON string body after the opening quote, returning (content, rest
after the closing quote). -/

def parseStringBody : Nat → List Char → Option (List Char × List Char)
  | 0, _ => none
  | fuel + 1, cs =>
    match cs with
    | [] => none
    | '"' :: rest => some ([], rest)
    | '\\' :: rest =>
      let esc : Option (Char × List Char) :=
        match rest with
        | [] => none
        | e :: rest' =>
          if e = '"' then some ('"', rest')
          else if e = '\\' then some ('\\', rest')
          else if e = '/' then some ('/', rest')
          else if e = 'b' then some (Char.ofNat 8, rest')
          else if e = 'f' then some (Char.ofNat 12, rest')
          else if e = 'n' then some ('\n', rest')
          else if e = 'r' then some ('\r', rest')
          else if e = 't' then some ('\t', rest')
          else if e = 'u' then parseU4 rest'
          else none
      match esc with
      | some (c, r) =>
        match parseStringBody fuel r with
        | some (s, r') => some (c :: s, r')
        | none => none
      | none => none
    | c :: rest =>
      match parseStringBody fuel rest with
      | some (s, r') => some (c :: s, r')
      | none => none

/-- An integer literal; a fraction or exponent makes the parse fail (the
repository's data carries only integer numbers). -/

def parseNumber (cs : List Char) : Option (JSONValue × List Char) :=
  let p : Bool × List Char := match cs with
    | '-' :: r => (true, r)
    | _ => (false, cs)
  let ds := p.2.takeWhile Char.isDigit
  if ds.isEmpty then none
  else
    let rest := p.2.drop ds.length
    match rest with
    | '.' :: _ => none
    | 'e' :: _ => none
    | 'E' :: _ => none
    | _ =>
      let v : Nat := ds.foldl (fun a c => a * 10 + (c.toNat - 48)) 0
      some (.num (if p.1 then -(v : Int) else (v : Int)), rest)

mutual

def parseJSONValue : Nat → List Char → Option (JSONValue × List Char)
  | 0, _ => none
  | fuel + 1, cs =>
    match skipWs cs with
    | [] => none
    | c :: rest =>
      if c = 'n' then (dropLit "null".data (c :: rest)).map (fun r => (.null, r))
      else if c = 't' then (dropLit "true".data (c :: rest)).map (fun r => (.bool true, r))
      else if c = 'f' then (dropLit "false".data (c :: rest)).map (fun r => (.bool false, r))
      else if c = '"' then
        match parseStringBody (rest.length + 1) rest with
        | some (s, r) => some (.str (String.mk s), r)
        | none => none
      else if c = '[' then
        match skipWs rest with
        | ']' :: r2 => some (.arr [], r2)
        | cs2 =>
          match parseElems fuel cs2 with
          | some (vs, r) => some (.arr vs, r)
          | none => none
      else if c = '{' then
        match skipWs rest with
        | '}' :: r2 => some (.obj [], r2)
        | cs2 =>
          match parseMembers fuel cs2 with
          | some (ms, r) => some (.obj ms, r)
          | none => none
      else parseNumber (c :: rest)

def parseElems : Nat → List Char → Option (List JSONValue × List Char)
  | 0, _ => none
  | fuel + 1, cs =>
    match parseJSONValue fuel cs with
    | none => none
    | some (v, r) =>
      match skipWs r with
      | ',' :: r2 =>
        match parseElems fuel r2 with
        | some (vs, rr) => some (v :: vs, rr)
        | none => none
      | ']' :: r2 => some ([v], r2)
      | _ => none

def parseMembers : Nat → List Char → Option (JObject × List Char)
  | 0, _ => none
  | fuel + 1, cs =>
    match skipWs cs with
    | '"' :: rest =>
      match parseStringBody (rest.length + 1) rest with
      | none => none
      | some (k, r) =>
        match skipWs r with
        | ':' :: r2 =>
          match parseJSONValue fuel r2 with
          | none => none
          | some (v, r3) =>
            match skipWs r3 with
            | ',' :: r4 =>
              match parseMembers fuel r4 with
              | some (ms, rr) => some ((String.mk k, v) :: ms, rr)
              | none => none
            | '}' :: r4 => some ([(String.mk k, v)], r4)
            | _ => none
        | _ => none
    | _ => none

end

/-- `json.Unmarshal` into `interface{}` : parse one value and require only
trailing whitespace after it. -/

def parseJSON (s : String) : Option JSONValue :=
  match parseJSONValue (4 * (s.data.length + 1)) s.data with
  | some (v, rest) => if (skipWs rest).isEmpty then some v else none
  | none => none

/-- `json.Unmarshal` into `map[string]interface{}` : an object fills the
map, `null` leaves it nil (which indexes like an empty map), anything else
is a decode error. -/

def parseJSONObjRaw (s : String) : Option JObject :=
  match parseJSON s with
  | some (.obj m) => some m
  | some .null => some []
  | _ => none

/-! ### Struct decoders (Go zero-value defaulting) -/

def fieldStr (o : JObject) (k : String) : Option String :=
  match lookup o k with
  | none => some ""
  | some .null => some ""
  | some (.str s) => some s
  | some _ => none

/-- `json.Unmarshal` errors on a number that overflows the target int64. -/
def int64InRange (n : Int) : Bool := decide (-(2 ^ 63) ≤ n ∧ n < 2 ^ 63)

def fieldInt (o : JObject) (k : String) : Option Int :=
  match lookup o k with
  | none => some 0
  | some .null => some 0
  | some (.num n) => if int64InRange n then some n else none
  | some _ => none

def decodeStringElem : JSONValue → Option String
  | .str s => some s
  | .null => some ""
  | _ => none

def fieldStrList (o : JObject) (k : String) : Option (List String) :=
  match lookup o k with
  | none => some []
  | some .null => some []
  | some (.arr l) => l.mapM decodeStringElem
  | some _ => none

def htmlWordFromJSON : JSONValue → Option HtmlWord
  | .null => some {}
  | .obj o => do
    let w ← fieldStr o "word"
    let p ← fieldInt o "position"
    pure { word := w, position := p }
  | _ => none

def fieldHtmlWords (o : JObject) (k : String) : Option (List HtmlWord) :=
  match lookup o k with
  | none => some []
  | some .null => some []
  | some (.arr l) => l.mapM htmlWordFromJSON
  | some _ => none

def fieldErrorType (o : JObject) (k : String) : Option ChecklistErrorType :=
  match lookup o k with
  | none => some {}
  | some .null => some {}
  | some (.obj t) => do
    let i ← fieldInt t "id"
    let b ← fieldInt t "belongId"
    let n ← fieldStr t "name"
    let d ← fieldStr t "desc"
    pure { id := i, belongId := b, name := n, desc := d }
  | some _ => none

def fieldObj (o : JObject) (k : String) : Option JObject :=
  match lookup o k with
  | none => some []
  | some .null => some []
  | some (.obj m) => some m
  | some _ => none

/-- `json.Unmarshal` of one array element into `ChecklistItem`. -/

def checklistItemFromJSON : JSONValue → Option ChecklistItem
  | .null => some {}
  | .obj o => do
    let pos ← fieldInt o "position"
    let w ← fieldStr o "word"
    let wh ← fieldStr o "wordHtml"
    let hws ← fieldHtmlWords o "htmlWords"
    let len ← fieldInt o "length"
    let sug ← fieldStrList o "suggest"
    let expl ← fieldStr o "explanation"
    let ty ← fieldErrorType o "type"
    let act ← fieldObj o "action"
    let ctx ← fieldStr o "context"
    let src ← fieldInt o "source"
    let um ← fieldInt o "um_error_level"
    let ll ← fieldStr o "leader_level"
    let sen ← fieldInt o "sentenceErrorsNumber"
    pure { position := pos, word := w, wordHtml := wh, htmlWords := hws,
           length := len, suggest := sug, explanation := expl, type := ty,
           action := act, context := ctx, source := src, um_error_level := um,
           leader_level := ll, sentenceErrorsNumber := sen }
  | _ => none

/-- `json.Unmarshal` into `[]ChecklistItem` from a decoded value (`null`
leaves the slice nil). -/

def decodeChecklistItemsVal : JSONValue → Option (List ChecklistItem)
  | .null => some []
  | .arr l => l.mapM checklistItemFromJSON
  | _ => none

/-- The decode step of `applyChecklistFixes` (lines 184-207): a string value
is parsed as JSON text, any other value is re-marshalled and decoded, both
landing in `[]ChecklistItem`. -/

def decodeChecklist : JSONValue → Option (List ChecklistItem)
  | .str s =>
    match parseJSON s with
    | none => none
    | some v => decodeChecklistItemsVal v
  | v => decodeChecklistItemsVal v

/-- `json.Unmarshal` of one array element into `Correction`. -/

def correctionFromJSON : JSONValue → Option Correction
  | .null => some {}
  | .obj o => do
    let et ← fieldInt o "errtype"
    let ew ← fieldStr o "errword"
    let ed ← fieldStr o "errdesc"
    let p ← fieldInt o "pos"
    let lv ← fieldInt o "level"
    let cw ← fieldStrList o "corword"
    pure { errtype := et, errword := ew, errdesc := ed, pos := p,
           level := lv, corword := cw }
  | _ => none

def decodeCorrectionsVal : JSONValue → Option (List Correction)
  | .null => some []
  | .arr l => l.mapM correctionFromJSON
  | _ => none

/-- The decode step of `applyCorrections` (lines 256-281). -/

def decodeCorrections : JSONValue → Option (List Correction)
  | .str s =>
    match parseJSON s with
    | none => none
    | some v => decodeCorrectionsVal v
  | v => decodeCorrectionsVal v

/-! ## The two patch engines and the per-record processor -/

/-- Insertion step of the descending-by-position sort
(`sort.Slice(checklistItems, …Position > …Position)`). -/

def insertDescByPosition (x : ChecklistItem) : List ChecklistItem → List ChecklistItem
  | [] => [x]
  | y :: ys =>
    if x.position ≤ y.position then y :: insertDescByPosition x ys
    else x :: y :: ys

def sortDescByPosition (l : List ChecklistItem) : List ChecklistItem :=
  l.foldr insertDescByPosition []

/-- Insertion step of the descending-by-`pos` sort of `applyCorrections`. -/

def insertDescByPos (x : Correction) : List Correction → List Correction
  | [] => [x]
  | y :: ys =>
    if x.pos ≤ y.pos then y :: insertDescByPos x ys
    else x :: y :: ys

def sortDescByPos (l : List Correction) : List Correction :=
  l.foldr insertDescByPos []

/-- `applyChecklistFixes` of `content_processor.go` (lines 179-246): decode
the checklist (returning the input text with the decode error on failure —
the `%v` detail of the wrapped `json.Unmarshal` error is elided), sort
descending by position, run the item loop.  `.error ()` is the Go
slice-bounds panic. -/

def applyChecklistFixes (replaceText : String) (checklist : JSONValue) :
    Except Unit (String × Option String) :=
  let originalText := replaceText
  match decodeChecklist checklist with
  | none => .ok (originalText, some "解析 checklist 失败")
  | some checklistItems =>
    if checklistItems.length = 0 then .ok (originalText, none)
    else
      match applyItemsLoop originalText.data (sortDescByPosition checklistItems) with
      | .error e => .error e
      | .ok runes => .ok (String.mk runes, none)

/-- Go `len(string(r))`: the UTF-8 byte size of one rune. -/

def charUtf8Size (c : Char) : Nat :=
  if c.toNat < 0x80 then 1
  else if c.toNat < 0x800 then 2
  else if c.toNat < 0x10000 then 3
  else 4

/-- Go `len(text)`: the UTF-8 byte length of a string. -/

def goByteLen (s : String) : Nat :=
  s.data.foldl (fun n c => n + charUtf8Size c) 0

/-- The `for i, r := range text` loop of `byteToRunePos`: `i` is the byte
offset of the current rune (Go's `range` over a string yields byte offsets),
`byteCount` accumulates the rune sizes, and `runePos` holds `i + 1` from the
previous iteration. -/

def byteToRunePosLoop (bytePos : Int) : List Char → Nat → Nat → Nat → Int
  | [], _, _, runePos => (runePos : Int)
  | r :: rest, i, byteCount, _ =>
    if bytePos ≤ (byteCount : Int) then (i : Int)
    else byteToRunePosLoop bytePos rest (i + charUtf8Size r) (byteCount + charUtf8Size r) (i + 1)

/-- `byteToRunePos` of `applyCorrections` (lines 302-316). -/

def byteToRunePos (text : String) (bytePos : Int) : Int :=
  if bytePos < 0 ∨ (goByteLen text : Int) ≤ bytePos then -1
  else byteToRunePosLoop bytePos text.data 0 0 0

/-- `strings.Index(haystack, needle) != -1` (for a valid UTF-8 needle a byte
match starts on a rune boundary, so rune-level search coincides). -/

def containsSub : List Char → List Char → Bool
  | [], n => n.isEmpty
  | c :: rest, n => n.isPrefixOf (c :: rest) || containsSub rest n

/-- `strings.Replace(s, old, new, 1)`: replace the first occurrence. -/

def replaceFirst : List Char → List Char → List Char → List Char
  | [], pat, rep => if pat.isEmpty then rep else []
  | c :: rest, pat, rep =>
    if pat.isPrefixOf (c :: rest) then rep ++ (c :: rest).drop pat.length
    else c :: replaceFirst rest pat rep

/-- One iteration of the `for _, corr := range corrections` loop of
`applyCorrections` (lines 319-372): try the positional match first (byte
position converted by `byteToRunePos`, actual text compared raw and with
revised-flavor markers stripped), then fall back to a first-occurrence
substring replacement. -/

def applyOneCorrection (modifiedText : String) (corr : Correction) : String :=
  match corr.corword with
  | [] => modifiedText
  | cw :: _ =>
    if cw = "" then modifiedText
    else if corr.errword = "" then modifiedText
    else
      let errWordRunes := corr.errword.data
      let correctWordRunes := cw.data
      let runes := modifiedText.data
      let positional : Option String :=
        if 0 ≤ corr.pos then
          let runePos := byteToRunePos modifiedText corr.pos
          if 0 ≤ runePos ∧ runePos + errWordRunes.length ≤ (runes.length : Int) then
            let rp := runePos.toNat
            let actualText := String.mk ((runes.drop rp).take errWordRunes.length)
            let actualTextCleaned := stripErrorMarkers actualText "new"
            if actualTextCleaned = corr.errword ∨ actualText = corr.errword then
              some (String.mk (runes.take rp ++ correctWordRunes ++
                runes.drop (rp + errWordRunes.length)))
            else none
          else none
        else none
      match positional with
      | some t => t
      | none =>
        if containsSub runes errWordRunes then
          String.mk (replaceFirst runes errWordRunes correctWordRunes)
        else modifiedText

/-- `applyCorrections` of `content_processor.go` (lines 251-375).  The
result carries the patched text and, for an empty corrections list, the
reason string the Go code writes into `result.ErrorReason`; `.error` is the
returned Go `error`. -/

def applyCorrections (originalTextWithMarkers : String) (checkResultJSON : JSONValue) :
    Except String (String × Option String) :=
  match checkResultJSON with
  | .null => .ok (originalTextWithMarkers, none)
  | v =>
    match decodeCorrections v with
    | none => .error "checkresultjson格式与预期不符"
    | some corrections =>
      if corrections.length = 0 then .ok (originalTextWithMarkers, some "没有错误")
      else
        .ok ((sortDescByPos corrections).foldl applyOneCorrection originalTextWithMarkers,
          none)

/-- `model.ProcessedContent` as the processor revision uses it (with the
failure-reason field the processor writes). -/

structure ProcessedContent where
  ID : String := ""
  OriginalText : String := ""
  ModifiedText : String := ""
  PID : String := ""
  ErrorReason : String := ""
deriving Repr, DecidableEq

/-- `model.JSONContent`: the parsed document (nil when parsing failed at
scan time) plus the raw text. -/

structure JSONContent where
  data : Option JObject := none
  raw : String := ""

/-- `model.VerifyContent` (the fields the processor reads). -/

structure VerifyContent where
  taskID : String := ""
  content : JSONContent := {}

/-- Lines 103-113 of `processOldFormat`: run `applyCorrections` (which may
set the no-errors reason), then store the normalized modified text. -/

def processOldCorrections (result1 : ProcessedContent)
    (originalTextWithErrorMarkers : String) (v : JSONValue) : ProcessedContent :=
  match applyCorrections originalTextWithErrorMarkers v with
  | .error e => { result1 with ErrorReason := "应用修正失败: " ++ e }
  | .ok (modifiedText, reasonOpt) =>
    let result2 :=
      match reasonOpt with
      | some rs => { result1 with ErrorReason := rs }
      | none => result1
    { result2 with ModifiedText := stripHTML modifiedText }

/-- `processOldFormat`, continued after the marked-source text has been
resolved (lines 83-113): an absent, null or empty-string corrections field
is reported as empty; anything else goes to `applyCorrections`. -/

def processOldFormatBody (dataObj : JObject) (result0 : ProcessedContent)
    (originalTextWithErrorMarkers : String) : ProcessedContent :=
  let originalText := stripErrorMarkers originalTextWithErrorMarkers "old"
  let result1 := { result0 with OriginalText := stripHTML originalText }
  match lookup dataObj "checkresultjson" with
  | none => { result1 with ErrorReason := "checkresultjson为空" }
  | some .null => { result1 with ErrorReason := "checkresultjson为空" }
  | some (.str sj) =>
    if sj = "" then { result1 with ErrorReason := "checkresultjson为空" }
    else processOldCorrections result1 originalTextWithErrorMarkers (.str sj)
  | some v => processOldCorrections result1 originalTextWithErrorMarkers v

/-- `processOldFormat` of `content_processor.go` (lines 67-114): resolve the
marked-source text under its three historical spellings — note the
emptiness check runs only when the primary spelling is absent or not a
string. -/

def processOldFormat (dataObj : JObject) (result0 : ProcessedContent) :
    ProcessedContent :=
  match asString (lookup dataObj "checkresultstr") with
  | some o => processOldFormatBody dataObj result0 o
  | none =>
    let o : String :=
      match lookup dataObj "checkResultStr" with
      | some v => (asString (some v)).getD ""
      | none =>
        match lookup dataObj "check_result_str" with
        | some v => (asString (some v)).getD ""
        | none => ""
    if o = "" then { result0 with ErrorReason := "未找到原文字段 checkresultstr" }
    else processOldFormatBody dataObj result0 o

/-- `processNewFormat` of `content_processor.go` (lines 117-176); `none` is
a Go panic escaping from `applyChecklistFixes`. -/

def processNewFormat (dataObj : JObject) (result0 : ProcessedContent) :
    Option ProcessedContent :=
  match asString (lookup dataObj "replace_text") with
  | none => some { result0 with ErrorReason := "未找到 replace_text 字段或字段为空" }
  | some replaceText =>
    if replaceText = "" then
      some { result0 with ErrorReason := "未找到 replace_text 字段或字段为空" }
    else
      match lookup dataObj "checklist" with
      | none =>
        let cleanedText := stripErrorMarkers replaceText "new"
        let m := stripHTML cleanedText
        some { result0 with ErrorReason := "未找到 checklist 字段",
                            ModifiedText := m, OriginalText := m }
      | some checklist =>
        let cleanedReplaceText := stripErrorMarkers replaceText "new"
        let result1 := { result0 with OriginalText := stripHTML cleanedReplaceText }
        match applyChecklistFixes cleanedReplaceText checklist with
        | .error _ => none
        | .ok (_, some e) =>
          some { result1 with ErrorReason := "提取原文失败: " ++ e,
                              ModifiedText := result1.OriginalText }
        | .ok (modifiedText, none) =>
          let cleanedModifiedText := stripErrorMarkers modifiedText "new"
          let result2 := { result1 with ModifiedText := stripHTML cleanedModifiedText }
          match checklist with
          | .arr a =>
            if a.length = 0 then some { result2 with ErrorReason := "没有错误" }
            else some result2
          | .str s =>
            match parseJSON s with
            | some (.arr a) =>
              if a.length = 0 then some { result2 with ErrorReason := "没有错误" }
              else some result2
            | some .null => some { result2 with ErrorReason := "没有错误" }
            | _ => some { result2 with ErrorReason := "checklist 格式错误" }
          | _ => some { result2 with ErrorReason := "checklist 格式错误" }

/-- The format dispatch of `ProcessContent` (lines 57-63): the revised path
wins exactly when `replace_text` is present as a non-empty string. -/

def dispatchFormat (dataObj : JObject) (result : ProcessedContent) :
    Option ProcessedContent :=
  match asString (lookup dataObj "replace_text") with
  | some rt =>
    if rt ≠ "" then processNewFormat dataObj result
    else some (processOldFormat dataObj result)
  | none => some (processOldFormat dataObj result)

/-- The `data`-wrapper unwrap of `ProcessContent` (lines 45-55). -/

def unwrapData (jsonData : JObject) : JObject :=
  match lookup jsonData "data" with
  | some (.obj m) => m
  | some _ => jsonData
  | none => jsonData

/-- `ProcessContent` of `content_processor.go` (lines 25-64); `none` is a Go
panic escaping from the revised-path patch engine.  The reason strings built
with `fmt.Sprintf("…: %v", err)` keep their prefix with the `%v` detail
elided. -/

def ProcessContent (verifyContent : VerifyContent) : Option ProcessedContent :=
  let result : ProcessedContent := { PID := verifyContent.taskID }
  match verifyContent.content.data with
  | some jsonData => dispatchFormat (unwrapData jsonData) result
  | none =>
    let raw := verifyContent.content.raw
    if raw = "" then some { result with ErrorReason := "内容为空" }
    else
      match parseJSONObjRaw raw with
      | none => some { result with ErrorReason := "JSON 解析失败" }
      | some jsonData => dispatchFormat (unwrapData jsonData) result

/-- A record carrying a non-empty `replace_text` together with non-empty
legacy fields: it is processed as Revised. -/

def c2WitnessObj : JObject :=
  [("replace_text", .str "xy"), ("checkresultstr", .str "abc"),
   ("checkresultjson", .str "[]"), ("checklist", .arr [])]

/-- A syntactically well-formed record whose checklist item carries a
negative length. -/

def c8Obj : JObject :=
  [("replace_text", .str "ab"),
   ("checklist", .arr [.obj [("position", .num 1), ("length", .num (-1)),
     ("suggest", .arr [.str "x"])]])]

def c8Record : VerifyContent := { taskID := "t8", content := { data := some c8Obj } }

/-- C10: when the checklist field is present but fails to decode into
`[]ChecklistItem`, `applyChecklistFixes` returns the input text unchanged
together with the decode error, and the processor stores the stripped,
normalized `replace_text` as both OriginalText and ModifiedText with a
non-empty decode-failure reason. -/

def c10Obj : JObject := [("replace_text", .str "hello"), ("checklist", .str "oops")]

/-! ## Claim C5: the legacy `checkresultjson = "[]"` scenario -/

def c5Obj : JObject := [("checkresultstr", .str "abc"), ("checkresultjson", .str "[]")]

def c5Record : VerifyContent := { taskID := "t5", content := { data := some c5Obj } }

/-! ## Claim C7: field-name fallback -/

def c7Obj : JObject := [("checkresultstr", .str "abc"), ("checkResultJson", .str "[]")]

def c7Record : VerifyContent := { taskID := "t7", content := { data := some c7Obj } }

def c7FallbackObj : JObject := [("checkResultStr", .str "hi")]

def c7SnakeObj : JObject := [("check_result_str", .str "hi")]

def c7NoJsonObj : JObject := [("checkresultstr", .str "hi"), ("checkResultJson", .str "[]")]

def c7LegacyOnlyObj : JObject := [("replaceText", .str "zz"), ("checkresultstr", .str "hi")]

def c7ChecklistObj : JObject :=
  [("replace_text", .str "zz"), ("checkList", .arr []), ("check_list", .arr [])]

/-- An input on which the revised-flavor stripper is *not* idempotent: the
first pass consumes a marker span whose lazy body ends at an inner
`</span>`, and the replacement re-assembles a fresh marker span out of the
surrounding fragments, which only a second pass removes. -/

def c6Example : String :=
  "<spa<span class=\"jdt_umold\">n class=\"jdt_umold\">x</span></span>"

/-- C9: every `ProcessedContent` that `ProcessContent` returns — on the
success paths, the degraded-success paths, and every failure path alike —
carries the input record's task identifier in its PID field; no later step
clears or rewrites it. -/

lemma le_maxEndPos :
    ∀ items : List ChecklistItem, ∀ it ∈ items,
      it.position + it.length ≤ ((maxEndPos items : Nat) : Int) := by
  intro items
  induction items with
  | nil => intro it h; cases h
  | cons a rest ih =>
    intro it h
    rcases List.mem_cons.mp h with h | h
    · subst h
      have h1 : it.position + it.length ≤ ((it.position + it.length).toNat : Int) :=
        Int.self_le_toNat _
      have h2 : (it.position + it.length).toNat ≤ maxEndPos (it :: rest) := by
        simp only [maxEndPos, List.foldr_cons]
        exact Nat.le_max_left _ _
      calc it.position + it.length ≤ ((it.position + it.length).toNat : Int) := h1
        _ ≤ (maxEndPos (it :: rest) : Int) := by exact_mod_cast h2
    · have h1 := ih it h
      have h2 : maxEndPos rest ≤ maxEndPos (a :: rest) := by
        simp only [maxEndPos, List.foldr_cons]
        exact Nat.le_max_right _ _
      calc it.position + it.length ≤ (maxEndPos rest : Int) := h1
        _ ≤ (maxEndPos (a :: rest) : Int) := by exact_mod_cast h2

lemma itemApplies_facts {t : List Char} {item : ChecklistItem}
    (h : itemApplies t item = true) :
    0 ≤ item.position ∧ item.position + item.length ≤ (t.length : Int) := by
  unfold itemApplies at h
  by_cases h0 : item.suggest.length = 0
  · rw [if_pos h0] at h; cases h
  · rw [if_neg h0] at h
    by_cases hb : item.position < 0 ∨ item.position + item.length > (t.length : Int)
    · rw [if_pos hb] at h; cases h
    · push_neg at hb
      exact ⟨by omega, hb.2⟩

/-- With a non-negative length and a non-overflowing end offset (the panic
cases excluded), one loop iteration is: check against the current text,
splice on success, skip on failure. -/

lemma applyChecklistItem_eq (runes : List Char) (item : ChecklistItem)
    (hlen : 0 ≤ item.length)
    (hnw : wrapInt64 (item.position + item.length) = item.position + item.length) :
    applyChecklistItem runes item =
      .ok (if itemApplies runes item then spliceChecklist runes item else runes) := by
  unfold applyChecklistItem itemApplies spliceChecklist
  simp only [hnw]
  by_cases h0 : item.suggest.length = 0
  · simp [h0]
  · simp only [if_neg h0]
    by_cases hb : item.position < 0 ∨ item.position + item.length > (runes.length : Int)
    · simp [hb]
    · have hnp : ¬ item.position + item.length < item.position := by omega
      simp only [if_neg hb, if_neg hnp]
      by_cases hw : String.mk ((runes.take (item.position + item.length).toNat).drop
          item.position.toNat) = item.word
      · simp [hw]
      · simp [hw]

/-- The item checks only read the first `E` codepoints of the text when the
item's range ends at or before `E`. -/

lemma itemApplies_congr (t1 t2 : List Char) (item : ChecklistItem) (E : Nat)
    (hE : item.position + item.length ≤ (E : Int))
    (ht : t1.take E = t2.take E) :
    itemApplies t1 item = itemApplies t2 item := by
  have hmin : min E t1.length = min E t2.length := by
    have := congrArg List.length ht
    simpa using this
  unfold itemApplies
  by_cases h0 : item.suggest.length = 0
  · rw [if_pos h0, if_pos h0]
  · rw [if_neg h0, if_neg h0]
    have hbounds : (item.position < 0 ∨ item.position + item.length > (t1.length : Int)) ↔
        (item.position < 0 ∨ item.position + item.length > (t2.length : Int)) := by
      omega
    by_cases hb : item.position < 0 ∨ item.position + item.length > (t1.length : Int)
    · rw [if_pos hb, if_pos (hbounds.mp hb)]
    · have hk : (item.position + item.length).toNat ≤ E := by omega
      have e1 : (t1.take E).take (item.position + item.length).toNat
          = t1.take (item.position + item.length).toNat := by
        rw [List.take_take]; congr 1; omega
      have e2 : (t2.take E).take (item.position + item.length).toNat
          = t2.take (item.position + item.length).toNat := by
        rw [List.take_take]; congr 1; omega
      have hslice : (t1.take (item.position + item.length).toNat).drop item.position.toNat
          = (t2.take (item.position + item.length).toNat).drop item.position.toNat := by
        rw [← e1, ← e2, ht]
      rw [if_neg hb, if_neg (fun hh => hb (hbounds.mpr hh)), hslice]

/-- A splice leaves every codepoint strictly below the item's start in place. -/

lemma take_spliceChecklist (acc : List Char) (item : ChecklistItem)
    (happ : itemApplies acc item = true) (hlen : 0 ≤ item.length) (E' : Nat)
    (hE' : E' ≤ item.position.toNat) :
    (spliceChecklist acc item).take E' = acc.take E' := by
  obtain ⟨hpos, hend⟩ := itemApplies_facts happ
  unfold spliceChecklist
  have hsl : item.position.toNat ≤ acc.length := by omega
  have hlt : (acc.take item.position.toNat).length = item.position.toNat := by
    simp [List.length_take]; omega
  rw [List.append_assoc, List.take_append_of_le_length (by omega),
    List.take_take]
  congr 1
  omega

/-- Generalized right-to-left invariant: as long as the pending items all end
at or before `E` and the reference text agrees with the working text on the
first `E` codepoints, the loop's live checks agree with checks against the
reference text. -/

lemma applyItemsLoop_eq_indep (items : List ChecklistItem) :
    ∀ (E : Nat) (checkT acc : List Char),
      sepDesc items = true →
      allLenNonneg items = true →
      allEndNoWrap items = true →
      (∀ it ∈ items, it.position + it.length ≤ (E : Int)) →
      checkT.take E = acc.take E →
      applyItemsLoop acc items =
        .ok (items.foldl
          (fun a it => if itemApplies checkT it then spliceChecklist a it else a) acc) := by
  induction items with
  | nil => intro E checkT acc _ _ _ _ _; rfl
  | cons item rest ih =>
    intro E checkT acc hsep hlen hnw hE htake
    have hsep' : (rest.all fun b =>
        decide (b.position + b.length ≤ item.position)) = true ∧ sepDesc rest = true := by
      simpa [sepDesc, Bool.and_eq_true] using hsep
    have hsepRest : ∀ b ∈ rest, b.position + b.length ≤ item.position := by
      intro b hb
      have := List.all_eq_true.mp hsep'.1 b hb
      simpa using this
    have hlen' : 0 ≤ item.length ∧ allLenNonneg rest = true := by
      constructor
      · have := List.all_eq_true.mp hlen item (List.mem_cons_self _ _)
        simpa using this
      · refine List.all_eq_true.mpr ?_
        intro b hb
        exact List.all_eq_true.mp hlen b (List.mem_cons_of_mem _ hb)
    have hnw' : wrapInt64 (item.position + item.length) = item.position + item.length ∧
        allEndNoWrap rest = true := by
      constructor
      · have := List.all_eq_true.mp hnw item (List.mem_cons_self _ _)
        simpa using this
      · refine List.all_eq_true.mpr ?_
        intro b hb
        exact List.all_eq_true.mp hnw b (List.mem_cons_of_mem _ hb)
    have hstep := applyChecklistItem_eq acc item hlen'.1 hnw'.1
    have hguard : itemApplies checkT item = itemApplies acc item :=
      itemApplies_congr checkT acc item E (hE item (List.mem_cons_self _ _)) htake
    simp only [applyItemsLoop, hstep, List.foldl_cons]
    by_cases happ : itemApplies checkT item = true
    · have happAcc : itemApplies acc item = true := by rw [← hguard]; exact happ
      rw [if_pos happAcc, if_pos happ]
      obtain ⟨hpos, _⟩ := itemApplies_facts happAcc
      have hposE : item.position.toNat ≤ E := by
        have := hE item (List.mem_cons_self _ _)
        omega
      refine ih item.position.toNat checkT (spliceChecklist acc item) hsep'.2 hlen'.2
        hnw'.2 ?_ ?_
      · intro b hb
        have h1 := hsepRest b hb
        omega
      · have h1 : (spliceChecklist acc item).take item.position.toNat
            = acc.take item.position.toNat :=
          take_spliceChecklist acc item happAcc hlen'.1 _ le_rfl
        have h2 : checkT.take item.position.toNat = acc.take item.position.toNat := by
          have e1 : (checkT.take E).take item.position.toNat
              = checkT.take item.position.toNat := by
            rw [List.take_take]; congr 1; omega
          have e2 : (acc.take E).take item.position.toNat
              = acc.take item.position.toNat := by
            rw [List.take_take]; congr 1; omega
          rw [← e1, ← e2, htake]
        rw [h1, h2]
    · have happAcc : ¬ itemApplies acc item = true := by rw [← hguard]; exact happ
      rw [if_neg happAcc, if_neg happ]
      refine ih E checkT acc hsep'.2 hlen'.2 hnw'.2 ?_ htake
      intro b hb
      exact hE b (List.mem_cons_of_mem _ hb)

/-- C1 counterexample: the claim as stated fails on a JSON-reachable item
whose end offset overflows int64.  `{position 2^63-1, length 1}` is a
non-overlapping, non-negative-width range (`sepDesc` and `allLenNonneg`
hold), yet Go wraps `end := start + item.Length` to `-2^63`, which slips
past the bounds guard (`start < 0 || end > len(runes)`) and panics at
`runes[start:end]` — the loop aborts instead of yielding the independent
composite. -/

theorem checklist_right_to_left_overflow_panics :
    sepDesc c1WrapItems = true ∧ allLenNonneg c1WrapItems = true ∧
      applyItemsLoop "ab".data c1WrapItems = .error () ∧
      applyItemsLoop "ab".data c1WrapItems
        ≠ .ok (indepComposite "ab".data c1WrapItems) := by
  refine ⟨by decide, by decide, rfl, ?_⟩
  intro hcontra
  rw [show applyItemsLoop "ab".data c1WrapItems = .error () from rfl] at hcontra
  exact Except.noConfusion hcontra

/-- C1 amended: right-to-left safety of the positional patch engine.  For
every text and every list of checklist items that is sorted descending by
position with pairwise non-overlapping (non-negative-width) ranges *whose
end offsets do not overflow int64* — the order in which
`applyChecklistFixes` processes items after its sort — the sequential loop
(whose checks read the mutating text) produces exactly the independent
composite in which every substitution is validated against the original
immutable text and composited by index: no applied replacement shifts the
offset of a not-yet-applied lower-position item. -/

theorem checklist_right_to_left_safe (runes : List Char) (items : List ChecklistItem)
    (hsep : sepDesc items = true) (hlen : allLenNonneg items = true)
    (hnw : allEndNoWrap items = true) :
    applyItemsLoop runes items = .ok (indepComposite runes items) := by
  have h := applyItemsLoop_eq_indep items (maxEndPos items) runes runes hsep hlen hnw
    (le_maxEndPos items) rfl
  simpa [indepComposite] using h

theorem checklist_right_to_left_safe_witness :
    sepDesc c1WitnessItems = true ∧ allLenNonneg c1WitnessItems = true ∧
      allEndNoWrap c1WitnessItems = true ∧
      applyItemsLoop "abcdef".data c1WitnessItems
        = .ok (indepComposite "abcdef".data c1WitnessItems) :=
  ⟨by decide, by decide, by decide,
    checklist_right_to_left_safe "abcdef".data c1WitnessItems
      (by decide) (by decide) (by decide)⟩

/-- C4: content-check refusal in the revised patch engine.  An item whose
recorded word does not match the current text's codepoint slice (its range
genuine: non-negative length, no int64 overflow of the end) — and likewise
an item failing the bounds check on the end offset the code computes (the
int64-wrapped `position + length`), or one with an empty suggestion list —
is skipped: that iteration returns the text bit-for-bit unchanged, and the
loop proceeds to the remaining items of the same list. -/

theorem checklist_refused_item_skipped (runes : List Char) (item : ChecklistItem)
    (rest : List ChecklistItem)
    (h : item.suggest.length = 0
      ∨ (item.position < 0 ∨
          wrapInt64 (item.position + item.length) > (runes.length : Int))
      ∨ (0 ≤ item.length ∧
          wrapInt64 (item.position + item.length) = item.position + item.length ∧
          String.mk ((runes.take (item.position + item.length).toNat).drop
            item.position.toNat) ≠ item.word)) :
    applyChecklistItem runes item = .ok runes ∧
      applyItemsLoop runes (item :: rest) = applyItemsLoop runes rest := by
  have hstep : applyChecklistItem runes item = .ok runes := by
    unfold applyChecklistItem
    rcases h with h0 | hb | ⟨hl, hnw, hw⟩
    · rw [if_pos h0]
    · by_cases h0 : item.suggest.length = 0
      · rw [if_pos h0]
      · rw [if_neg h0, if_pos hb]
    · by_cases h0 : item.suggest.length = 0
      · rw [if_pos h0]
      · rw [if_neg h0]
        by_cases hb : item.position < 0 ∨
            wrapInt64 (item.position + item.length) > (runes.length : Int)
        · rw [if_pos hb]
        · rw [if_neg hb, hnw,
            if_neg (by omega : ¬ item.position + item.length < item.position),
            if_pos hw]
  exact ⟨hstep, by simp only [applyItemsLoop, hstep]⟩

theorem checklist_refused_item_skipped_witness :
    (0 ≤ c4WitnessItem.length ∧
      wrapInt64 (c4WitnessItem.position + c4WitnessItem.length)
        = c4WitnessItem.position + c4WitnessItem.length ∧
      String.mk (("abcdef".data.take
          (c4WitnessItem.position + c4WitnessItem.length).toNat).drop
        c4WitnessItem.position.toNat) ≠ c4WitnessItem.word) ∧
    applyChecklistItem "abcdef".data c4WitnessItem = .ok "abcdef".data ∧
      applyItemsLoop "abcdef".data (c4WitnessItem :: c4WitnessRest)
        = applyItemsLoop "abcdef".data c4WitnessRest :=
  ⟨⟨by decide, by decide, by decide⟩,
    checklist_refused_item_skipped "abcdef".data c4WitnessItem c4WitnessRest
      (Or.inr (Or.inr ⟨by decide, by decide, by decide⟩))⟩

/-! ## Claim C2: classifier precedence -/

/-- C2: for every decoded data object whose `replace_text` field is present
as a non-empty string, the dispatch takes the Revised path, and that path's
result depends only on the `replace_text` and `checklist` entries — so legacy
fields (`checkresultstr`/`checkresultjson`), present or not, cannot change
the outcome. -/

theorem revised_wins_classifier_precedence (dataObj : JObject)
    (r : ProcessedContent) (s : String)
    (h1 : lookup dataObj "replace_text" = some (.str s)) (h2 : s ≠ "") :
    dispatchFormat dataObj r = processNewFormat dataObj r ∧
    ∀ d2 : JObject, lookup d2 "replace_text" = lookup dataObj "replace_text" →
      lookup d2 "checklist" = lookup dataObj "checklist" →
      processNewFormat d2 r = processNewFormat dataObj r := by
  constructor
  · unfold dispatchFormat
    rw [h1]
    simp [asString, h2]
  · intro d2 e1 e2
    unfold processNewFormat
    rw [e1, e2, h1]

theorem revised_wins_classifier_precedence_witness :
    lookup c2WitnessObj "replace_text" = some (.str "xy") ∧ ("xy" : String) ≠ "" ∧
      dispatchFormat c2WitnessObj {} = processNewFormat c2WitnessObj {} :=
  ⟨rfl, by decide,
    (revised_wins_classifier_precedence c2WitnessObj {} "xy" rfl (by decide)).1⟩

/-! ## Claim C3: byte-to-codepoint mapping (`byteToRunePos`) -/

/-- C3: `byteToRunePos` is documented ("将字节位置转换为 rune 位置") and used
as a byte-offset-to-codepoint-index conversion, but its `for i, r := range
text` loop returns `i`, which Go's string `range` yields as a *byte* offset.
At "中文abc" with byte position 6, the boundary after the two 3-byte runes,
it returns 6 while the codepoint index of that boundary is 2 (the string has
only 5 codepoints): the returned value is later used to index `[]rune`. -/

theorem byteToRunePos_returns_byte_offset :
    byteToRunePos "中文abc" 6 = 6 ∧
    goByteLen (String.mk ("中文abc".data.take 2)) = 6 ∧
    "中文abc".data.length = 5 ∧ (6 : Int) ≠ 2 := by decide

/-! ## Claim C8: totality of per-record processing -/

/-- C8: the claim (and the code's own doc comment, "即使处理失败也会返回结果")
says processing never aborts; but a checklist item with `length = -1` passes
the bounds guard (`start < 0 || end > len(runes)` with start 1, end 0) and
then `runes[1:0]` panics — modelled by `ProcessContent` returning `none`
instead of a `ProcessedContent`. -/

theorem process_content_panics_on_negative_length :
    ProcessContent c8Record = none := by decide

/-! ## Claim C10: atomicity of revised-path checklist decode failure -/

theorem revised_decode_failure_atomic (dataObj : JObject) (r : ProcessedContent)
    (rt : String) (cl : JSONValue)
    (h1 : lookup dataObj "replace_text" = some (.str rt)) (h2 : rt ≠ "")
    (h3 : lookup dataObj "checklist" = some cl)
    (h4 : decodeChecklist cl = none) :
    applyChecklistFixes (stripErrorMarkers rt "new") cl
        = .ok (stripErrorMarkers rt "new", some "解析 checklist 失败") ∧
    processNewFormat dataObj r = some { r with
        OriginalText := stripHTML (stripErrorMarkers rt "new"),
        ModifiedText := stripHTML (stripErrorMarkers rt "new"),
        ErrorReason := "提取原文失败: 解析 checklist 失败" } ∧
    ("提取原文失败: 解析 checklist 失败" : String) ≠ "" := by
  have hfix : applyChecklistFixes (stripErrorMarkers rt "new") cl
      = .ok (stripErrorMarkers rt "new", some "解析 checklist 失败") := by
    unfold applyChecklistFixes
    rw [h4]
  refine ⟨hfix, ?_, by decide⟩
  unfold processNewFormat
  rw [h1]
  simp only [asString, if_neg h2, h3, hfix]
  rfl

theorem revised_decode_failure_atomic_witness :
    decodeChecklist (.str "oops") = none ∧
    processNewFormat c10Obj {} = some { ({} : ProcessedContent) with
        OriginalText := stripHTML (stripErrorMarkers "hello" "new"),
        ModifiedText := stripHTML (stripErrorMarkers "hello" "new"),
        ErrorReason := "提取原文失败: 解析 checklist 失败" } :=
  ⟨rfl,
    (revised_decode_failure_atomic c10Obj {} "hello" (.str "oops")
      rfl (by decide) rfl rfl).2.1⟩

/-- C5 counterexample: the claim says such a record yields an *empty*
ModifiedText, but on `checkresultstr = "abc"`, `checkresultjson = "[]"` the
code returns ModifiedText `"abc"`: the empty corrections list reaches
`applyCorrections`, which hands the marked text back unchanged, and line 112
stores its normalized form. -/

theorem legacy_no_errors_modified_not_empty :
    ProcessContent c5Record = some { OriginalText := "abc", ModifiedText := "abc",
                                     PID := "t5", ErrorReason := "没有错误" } ∧
      ("abc" : String) ≠ "" := by decide

/-- C5 amended: for every legacy record with `checkresultstr` present as a
non-empty string `s` and `checkresultjson` the string `"[]"`, the result has
reason "没有错误" (no errors), OriginalText the fully normalized stripped
text, and ModifiedText the normalized *marked* text — populated, not
empty. -/

theorem legacy_no_errors_reason_and_texts (dataObj : JObject)
    (r : ProcessedContent) (s : String)
    (h1 : lookup dataObj "checkresultstr" = some (.str s)) (_h2 : s ≠ "")
    (h3 : lookup dataObj "checkresultjson" = some (.str "[]")) :
    processOldFormat dataObj r =
      { r with OriginalText := stripHTML (stripErrorMarkers s "old"),
               ModifiedText := stripHTML s,
               ErrorReason := "没有错误" } := by
  have hcorr : applyCorrections s (.str "[]") = .ok (s, some "没有错误") := rfl
  unfold processOldFormat
  rw [h1]
  show processOldFormatBody dataObj r s = _
  simp only [processOldFormatBody, h3]
  rw [if_neg (by decide : ¬ ("[]" : String) = "")]
  simp only [processOldCorrections, hcorr]

theorem legacy_no_errors_reason_and_texts_witness :
    lookup c5Obj "checkresultstr" = some (.str "abc") ∧
    lookup c5Obj "checkresultjson" = some (.str "[]") ∧
    processOldFormat c5Obj { PID := "t5" } =
      { ({ PID := "t5" } : ProcessedContent) with
        OriginalText := stripHTML (stripErrorMarkers "abc" "old"),
        ModifiedText := stripHTML "abc",
        ErrorReason := "没有错误" } :=
  ⟨rfl, rfl,
    legacy_no_errors_reason_and_texts c5Obj { PID := "t5" } "abc" rfl (by decide) rfl⟩

/-- C7 counterexample: the corrections field is *not* looked up under its
camelCase spelling.  A record carrying a corrections list as
`checkResultJson` still yields the corrections-empty reason and an empty
ModifiedText: only the exact key `checkresultjson` is consulted. -/

theorem corrections_field_has_no_fallback :
    lookup c7Obj "checkResultJson" = some (.str "[]") ∧
    ProcessContent c7Record = some { OriginalText := "abc", PID := "t7",
                                     ErrorReason := "checkresultjson为空" } :=
  ⟨rfl, by decide⟩

/-- C7 amended: only the marked-source field enjoys the spelling fallback —
`checkresultstr` is looked up under `checkresultstr`, `checkResultStr`,
`check_result_str` (in that order) before being declared missing — while the
corrections field is looked up under the single spelling `checkresultjson`
(an absent exact key means the empty-corrections reason, whatever other
spellings are present), the revised-path dispatch keys on the single
spelling `replace_text`, and the checklist field is looked up under the
single spelling `checklist` (an absent exact key means the
checklist-missing degraded success, whatever other spellings are
present). -/

theorem field_name_fallback_amended :
    (∀ (dataObj : JObject) (r : ProcessedContent) (s : String),
      lookup dataObj "checkresultstr" = none →
      lookup dataObj "checkResultStr" = some (.str s) → s ≠ "" →
      processOldFormat dataObj r = processOldFormatBody dataObj r s) ∧
    (∀ (dataObj : JObject) (r : ProcessedContent) (s : String),
      lookup dataObj "checkresultstr" = none →
      lookup dataObj "checkResultStr" = none →
      lookup dataObj "check_result_str" = some (.str s) → s ≠ "" →
      processOldFormat dataObj r = processOldFormatBody dataObj r s) ∧
    (∀ (dataObj : JObject) (r : ProcessedContent) (s : String),
      lookup dataObj "checkresultstr" = some (.str s) →
      lookup dataObj "checkresultjson" = none →
      processOldFormat dataObj r =
        { r with OriginalText := stripHTML (stripErrorMarkers s "old"),
                 ErrorReason := "checkresultjson为空" }) ∧
    (∀ (dataObj : JObject) (r : ProcessedContent),
      lookup dataObj "replace_text" = none →
      dispatchFormat dataObj r = some (processOldFormat dataObj r)) ∧
    (∀ (dataObj : JObject) (r : ProcessedContent) (rt : String),
      lookup dataObj "replace_text" = some (.str rt) → rt ≠ "" →
      lookup dataObj "checklist" = none →
      processNewFormat dataObj r = some { r with
        OriginalText := stripHTML (stripErrorMarkers rt "new"),
        ModifiedText := stripHTML (stripErrorMarkers rt "new"),
        ErrorReason := "未找到 checklist 字段" }) := by
  refine ⟨?_, ?_, ?_, ?_, ?_⟩
  · intro dataObj r s h1 h2 h3
    unfold processOldFormat
    rw [h1, h2]
    simp [asString, h3]
  · intro dataObj r s h1 h2 h3 h4
    unfold processOldFormat
    rw [h1, h2, h3]
    simp [asString, h4]
  · intro dataObj r s h1 h2
    unfold processOldFormat
    rw [h1]
    show processOldFormatBody dataObj r s = _
    simp only [processOldFormatBody, h2]
  · intro dataObj r h
    unfold dispatchFormat
    rw [h]
    rfl
  · intro dataObj r rt h1 h2 h3
    unfold processNewFormat
    rw [h1]
    simp only [asString, if_neg h2, h3]

theorem field_name_fallback_amended_witness :
    processOldFormat c7FallbackObj {} = processOldFormatBody c7FallbackObj {} "hi" ∧
    processOldFormat c7SnakeObj {} = processOldFormatBody c7SnakeObj {} "hi" ∧
    processOldFormat c7NoJsonObj {} =
      { ({} : ProcessedContent) with
        OriginalText := stripHTML (stripErrorMarkers "hi" "old"),
        ErrorReason := "checkresultjson为空" } ∧
    dispatchFormat c7LegacyOnlyObj {} = some (processOldFormat c7LegacyOnlyObj {}) ∧
    processNewFormat c7ChecklistObj {} = some { ({} : ProcessedContent) with
      OriginalText := stripHTML (stripErrorMarkers "zz" "new"),
      ModifiedText := stripHTML (stripErrorMarkers "zz" "new"),
      ErrorReason := "未找到 checklist 字段" } :=
  ⟨field_name_fallback_amended.1 c7FallbackObj {} "hi" rfl rfl (by decide),
   field_name_fallback_amended.2.1 c7SnakeObj {} "hi" rfl rfl rfl (by decide),
   field_name_fallback_amended.2.2.1 c7NoJsonObj {} "hi" rfl rfl,
   field_name_fallback_amended.2.2.2.1 c7LegacyOnlyObj {} rfl,
   field_name_fallback_amended.2.2.2.2 c7ChecklistObj {} "zz" rfl (by decide) rfl⟩

/-! ## Claim C6: idempotence of the revised-flavor stripper -/

/-- C6 counterexample: one application of the revised-flavor stripper leaves
`<span class="jdt_umold">x</span>`, a second application strips it to `x`,
so double application differs from single application. -/

theorem strip_new_not_idempotent :
    stripErrorMarkers (stripErrorMarkers c6Example "new") "new"
      ≠ stripErrorMarkers c6Example "new" := by decide

lemma replaceAllSpanNew_no_match (fuel : Nat) (cs : List Char)
    (h : findSpanNewMatch cs = none) : replaceAllSpanNew fuel cs = cs := by
  cases fuel with
  | zero => rfl
  | succ n => simp [replaceAllSpanNew, h]

/-- C6 amended: the revised-flavor stripper is idempotent on every input
whose single application leaves no remaining marker-span match (in
particular whenever a pass reaches a fixed point); on inputs whose stripped
form again contains a marker span — see the counterexample — a second
application strips further, so unrestricted idempotence fails. -/

theorem strip_new_idempotent_of_no_match (s : String)
    (h : findSpanNewMatch (stripErrorMarkers s "new").data = none) :
    stripErrorMarkers (stripErrorMarkers s "new") "new"
      = stripErrorMarkers s "new" := by
  generalize hgen : stripErrorMarkers s "new" = t at h ⊢
  unfold stripErrorMarkers
  by_cases ht : t = ""
  · rw [if_pos ht]
  · rw [if_neg ht]
    show String.mk (replaceAllSpanNew t.data.length t.data) = t
    rw [replaceAllSpanNew_no_match _ _ h]

theorem strip_new_idempotent_of_no_match_witness :
    findSpanNewMatch
        (stripErrorMarkers "a<span class=\"jdt_umold\">b</span>c" "new").data = none ∧
    stripErrorMarkers
        (stripErrorMarkers "a<span class=\"jdt_umold\">b</span>c" "new") "new"
      = stripErrorMarkers "a<span class=\"jdt_umold\">b</span>c" "new" :=
  ⟨by decide, strip_new_idempotent_of_no_match _ (by decide)⟩

/-! ## Claim C9: the task identifier is carried on every path -/

lemma processOldCorrections_PID (r : ProcessedContent) (o : String) (v : JSONValue) :
    (processOldCorrections r o v).PID = r.PID := by
  unfold processOldCorrections
  repeat' split
  all_goals rfl

lemma processOldFormatBody_PID (d : JObject) (r : ProcessedContent) (o : String) :
    (processOldFormatBody d r o).PID = r.PID := by
  unfold processOldFormatBody
  repeat' split
  all_goals first
  | rfl
  | exact processOldCorrections_PID _ _ _

lemma processOldFormat_PID (d : JObject) (r : ProcessedContent) :
    (processOldFormat d r).PID = r.PID := by
  unfold processOldFormat
  dsimp only
  repeat' split
  all_goals first
  | rfl
  | exact processOldFormatBody_PID _ _ _

lemma processNewFormat_PID (d : JObject) (r x : ProcessedContent)
    (h : processNewFormat d r = some x) : x.PID = r.PID := by
  unfold processNewFormat at h
  dsimp only at h
  repeat' split at h
  all_goals cases h
  all_goals rfl

lemma dispatchFormat_PID (d : JObject) (r x : ProcessedContent)
    (h : dispatchFormat d r = some x) : x.PID = r.PID := by
  unfold dispatchFormat at h
  repeat' split at h
  · exact processNewFormat_PID _ _ _ h
  · cases h
    exact processOldFormat_PID _ _
  · cases h
    exact processOldFormat_PID _ _

theorem processed_content_keeps_task_id (vc : VerifyContent) (x : ProcessedContent)
    (h : ProcessContent vc = some x) : x.PID = vc.taskID := by
  unfold ProcessContent at h
  dsimp only at h
  repeat' split at h
  all_goals first
  | (cases h; rfl)
  | exact dispatchFormat_PID _ _ _ h

theorem processed_content_keeps_task_id_witness :
    ProcessContent { taskID := "tid-9", content := {} }
        = some { PID := "tid-9", ErrorReason := "内容为空" } ∧
      ∀ x : ProcessedContent,
        ProcessContent { taskID := "tid-9", content := {} } = some x →
          x.PID = "tid-9" :=
  ⟨rfl, fun x h => processed_content_keeps_task_id _ x h⟩

end ContentVerify
